import Mathlib

/-!
Verification of the gostlink ST-Link probe driver's memory/register access
layer (package `gostlink`).

The definitions below are a shallow embedding of the Go source:

* `ReadMem` / `WriteMem` (`usb.go`, the unnamed part): the alignment-aware
  chunking loops, embedded as pure functions that return the list of wire
  memory transfers emitted on the success path (every USB transfer returns
  OK).  Machine integers (`uint32` addresses and counts) are modelled as
  `Nat`; on the success path reachable from the public entry points none of
  the Go subtractions underflow (theorems below carry the hypotheses that
  delimit that region), so `Nat` arithmetic agrees with the Go `uint32`
  arithmetic there.  Where a wrap can actually occur (`UsbReadMem`'s
  `uint16` arithmetic, `PollTrace`'s `uint32` decrement) it is modelled
  explicitly with `% 2^w`.
* `UsbReadMem` (`register.go`): the byte-oriented pre/32-bit/post splitter.
* `usbModeEnter` / `usbLeaveMode` (`mode.go`): the command bytes written to
  the command buffer before the USB exchange.
* `usbOpenAp` / `usbInitAccessPort` (`register.go`): access-port
  initialisation over the opened-AP bitmap.
* `UsbReadMem8Appended` (`register.go`), `getTargetVoltage`, `PollTrace`
  (`usb.go`): the reply-length fixups, voltage computation and trace
  polling.
* `readMemRetry` / `writeMemRetry`: the error-handling decision taken by
  one iteration of the outer retry loops of `ReadMem` and `WriteMem`.

A handful of constants and helpers of the repository are not part of the
provided sources (only their callers are); those are modelled from the
specification and say so in their doc comments.
-/

namespace Gostlink

/-- A wire memory-read transfer: the `{addr, len}` pair of a
`READ_MEM_{8,16,32}BIT` command as built by `usbReadMem8/16/32`. -/
inductive RTransfer where
  | read8 (addr len : Nat)
  | read16 (addr len : Nat)
  | read32 (addr len : Nat)
deriving DecidableEq, Repr

/-- A wire memory-write transfer: the `{addr, len}` command pair of a
`WRITE_MEM_{8,16,32}BIT` command plus the payload bytes placed in the data
buffer (`buffer[:len]` of the slice handed to `usbWriteMem8/16/32`). -/
inductive WTransfer where
  | w8 (addr len : Nat) (payload : List Nat)
  | w16 (addr len : Nat) (payload : List Nat)
  | w32 (addr len : Nat) (payload : List Nat)
deriving DecidableEq, Repr

/-- The slice of the probe handle (`StLinkHandle`) that the memory layer
reads: probe generation (`version.stlink`), the `STLINK_F_HAS_MEM16BIT`
capability flag, and the TAR auto-increment limit `max_mem_packet`
(set to `1 << 10` on open, widened to `1 << 12` for Cortex-M3/M4). -/
structure Probe where
  stlink : Nat
  hasMem16 : Bool
  maxMemPacket : Nat
deriving DecidableEq, Repr

/-- Modelled from the spec: `usbBlock` — the probe block size for 8-bit
transfers, "64 B for V1/V2, 512 B for V3" (`UsbReadMem8` comment: "max 8
bit read/write is 64 bytes or 512 bytes for v3"). -/
def usbBlock (h : Probe) : Nat :=
  if h.stlink = 3 then 512 else 64

/-- Modelled from the spec: `maxBlockSize` —
`bytes_remaining_to_autoinc_page(addr) = mem_packet_limit − (addr mod
mem_packet_limit)`, so a transfer never crosses the TAR auto-increment
page boundary. -/
def maxBlockSize (maxMemPacket addr : Nat) : Nat :=
  maxMemPacket - addr % maxMemPacket

/-- The chunk size of one loop iteration: `bytesRemaining`, clamped to the
remaining byte count (`if count < bytesRemaining { bytesRemaining = count }`). -/
def chunkSize (count limit : Nat) : Nat :=
  if count < limit then count else limit

/-- The per-iteration block limit: the auto-increment page remainder for
16/32-bit transfers, the USB block size for 8-bit transfers. -/
def blockLimit (h : Probe) (u addr : Nat) : Nat :=
  if u ≠ 1 then maxBlockSize h.maxMemPacket addr else usbBlock h

/-- The 8-bit chunk loop of `ReadMem` (the `bitLength == Memory8BitBlock`
branch, which is also what the recursive call `ReadMem(addr, 1,
bytesRemaining)` runs): emit `usbReadMem8(addr, min(count, usbBlock))`
chunks until `count` is exhausted.  `fuel` bounds the iteration count; the
callers pass `fuel = count`, which suffices because each iteration consumes
at least one byte. -/
def readMem8Fuel (blk : Nat) : Nat → Nat → Nat → List RTransfer
  | 0, _, _ => []
  | fuel + 1, addr, count =>
    if count = 0 then []
    else
      RTransfer.read8 addr (chunkSize count blk)
        :: readMem8Fuel blk fuel (addr + chunkSize count blk)
            (count - chunkSize count blk)

/-- The aligned-chunk dispatch of `ReadMem`: if the chunk length is not a
multiple of the unit, the whole chunk is re-read through
`ReadMem(addr, 1, bytesRemaining)`; otherwise a single
`usbReadMem16/32(addr, bytesRemaining)` is issued. -/
def readMemAlignedChunk (h : Probe) (u addr br : Nat) : List RTransfer :=
  if br % u > 0 then readMem8Fuel (usbBlock h) br addr br
  else if u = 2 then [RTransfer.read16 addr br]
  else [RTransfer.read32 addr br]

/-- The chunk loop of `ReadMem` after the byte-count multiplication and the
MEM16 downgrade, on the success path (every transfer returns OK, so the
retry branches are never taken).  One iteration: compute the block limit
from the *current* address, clamp to the remaining count, split off an
8-bit head of `u - addr % u` bytes when the address is unaligned, then
dispatch the (rest of the) chunk, and advance `addr`/`count` by the chunk
size.  `fuel = count` suffices since each iteration consumes at least one
byte whenever `maxMemPacket > 0`. -/
def readMemLoopFuel (h : Probe) (u : Nat) : Nat → Nat → Nat → List RTransfer
  | 0, _, _ => []
  | fuel + 1, addr, count =>
    if count = 0 then []
    else if u ≠ 1 then
      if addr % u > 0 then
        RTransfer.read8 addr (u - addr % u)
          :: (readMemAlignedChunk h u (addr + (u - addr % u))
                (chunkSize count (blockLimit h u addr) - (u - addr % u))
              ++ readMemLoopFuel h u fuel
                  (addr + (u - addr % u)
                    + (chunkSize count (blockLimit h u addr) - (u - addr % u)))
                  ((count - (u - addr % u))
                    - (chunkSize count (blockLimit h u addr) - (u - addr % u))))
      else
        readMemAlignedChunk h u addr (chunkSize count (blockLimit h u addr))
          ++ readMemLoopFuel h u fuel
              (addr + chunkSize count (blockLimit h u addr))
              (count - chunkSize count (blockLimit h u addr))
    else
      RTransfer.read8 addr (chunkSize count (blockLimit h u addr))
        :: readMemLoopFuel h u fuel
            (addr + chunkSize count (blockLimit h u addr))
            (count - chunkSize count (blockLimit h u addr))

/-- `ReadMem(addr, bitLength, count)`: multiply `count` by the unit to get
the byte count, downgrade a 16-bit request to 8-bit when the
`STLINK_F_HAS_MEM16BIT` flag is absent, then run the chunk loop.  Returns
the wire transfers emitted on the success path. -/
def ReadMem (h : Probe) (addr u count : Nat) : List RTransfer :=
  readMemLoopFuel h (if u = 2 ∧ h.hasMem16 = false then 1 else u)
    (count * u) addr (count * u)

/-- `UsbReadMem(addr, len)` (`register.go`): an 8-bit pre-read up to the
next 32-bit boundary, one 32-bit read of the largest aligned multiple of
four, then an 8-bit post-read of the remainder.  The Go lengths are
`uint16`, so the subtractions wrap modulo `2^16`. -/
def UsbReadMem (addr len : Nat) : List RTransfer :=
  let pre0 := addr % 4
  let prelen := if pre0 > 0 then 4 - pre0 else 0
  let preList := if pre0 > 0 then [RTransfer.read8 addr prelen] else []
  let w32len := (len + 65536 - prelen) % 65536 / 4 * 4
  let w32List := if w32len > 0 then [RTransfer.read32 (addr + prelen) w32len] else []
  let postlen := (len + 2 * 65536 - w32len - prelen) % 65536
  let postList :=
    if postlen > 0 then [RTransfer.read8 (addr + prelen + w32len) postlen] else []
  preList ++ w32List ++ postList

/-- The 8-bit chunk loop of `WriteMem` (its `bitLength == Memory8BitBlock`
branch, which is also what the recursive call `WriteMem(address, 1,
bytesRemaining, buffer[bufferPos:])` runs).  Each iteration emits
`usbWriteMem8(address, min(count, usbBlock), buffer)` — note that the Go
code passes the *unsliced* `buffer` here (line `retError =
h.usbWriteMem8(address, uint16(bytesRemaining), buffer)`), so every chunk's
payload is taken from the start of the buffer even though `bufferPos` is
advanced. -/
def writeMem8Fuel (blk : Nat) : Nat → Nat → Nat → List Nat → List WTransfer
  | 0, _, _, _ => []
  | fuel + 1, addr, count, buffer =>
    if count = 0 then []
    else
      WTransfer.w8 addr (chunkSize count blk) (buffer.take (chunkSize count blk))
        :: writeMem8Fuel blk fuel (addr + chunkSize count blk)
            (count - chunkSize count blk) buffer

/-- The aligned-chunk dispatch of `WriteMem`: a non-multiple chunk is
re-written through `WriteMem(address, 1, bytesRemaining,
buffer[bufferPos:])`; otherwise one `usbWriteMem16/32(address,
bytesRemaining, buffer[bufferPos:])` is issued.  `buf` is the already
sliced `buffer[bufferPos:]`. -/
def writeMemAlignedChunk (h : Probe) (u addr br : Nat) (buf : List Nat) :
    List WTransfer :=
  if br % u > 0 then writeMem8Fuel (usbBlock h) br addr br buf
  else if u = 2 then [WTransfer.w16 addr br (buf.take br)]
  else [WTransfer.w32 addr br (buf.take br)]

/-- The chunk loop of `WriteMem` on the success path, tracking `bufferPos`
exactly as the Go code does.  The head transfer passes the unsliced
`buffer` (payload `buffer[:headBytes]`), the 16/32-bit and recursive
branches pass `buffer[bufferPos:]`, and the 8-bit branch passes the
unsliced `buffer`. -/
def writeMemLoopFuel (h : Probe) (u : Nat) :
    Nat → Nat → Nat → Nat → List Nat → List WTransfer
  | 0, _, _, _, _ => []
  | fuel + 1, addr, count, bufferPos, buffer =>
    if count = 0 then []
    else if u ≠ 1 then
      if addr % u > 0 then
        WTransfer.w8 addr (u - addr % u) (buffer.take (u - addr % u))
          :: (writeMemAlignedChunk h u (addr + (u - addr % u))
                (chunkSize count (blockLimit h u addr) - (u - addr % u))
                (buffer.drop (bufferPos + (u - addr % u)))
              ++ writeMemLoopFuel h u fuel
                  (addr + (u - addr % u)
                    + (chunkSize count (blockLimit h u addr) - (u - addr % u)))
                  ((count - (u - addr % u))
                    - (chunkSize count (blockLimit h u addr) - (u - addr % u)))
                  (bufferPos + (u - addr % u)
                    + (chunkSize count (blockLimit h u addr) - (u - addr % u)))
                  buffer)
      else
        writeMemAlignedChunk h u addr (chunkSize count (blockLimit h u addr))
            (buffer.drop bufferPos)
          ++ writeMemLoopFuel h u fuel
              (addr + chunkSize count (blockLimit h u addr))
              (count - chunkSize count (blockLimit h u addr))
              (bufferPos + chunkSize count (blockLimit h u addr))
              buffer
    else
      WTransfer.w8 addr (chunkSize count (blockLimit h u addr))
          (buffer.take (chunkSize count (blockLimit h u addr)))
        :: writeMemLoopFuel h u fuel
            (addr + chunkSize count (blockLimit h u addr))
            (count - chunkSize count (blockLimit h u addr))
            (bufferPos + chunkSize count (blockLimit h u addr))
            buffer

/-- `WriteMem(address, bitLength, count, buffer)`: byte-count
multiplication, MEM16 downgrade, then the chunk loop, starting with
`bufferPos = 0`. -/
def WriteMem (h : Probe) (addr u count : Nat) (buffer : List Nat) :
    List WTransfer :=
  writeMemLoopFuel h (if u = 2 ∧ h.hasMem16 = false then 1 else u)
    (count * u) addr (count * u) 0 buffer

/-- Payload field of a write transfer. -/
def wtPayload : WTransfer → List Nat
  | .w8 _ _ p => p
  | .w16 _ _ p => p
  | .w32 _ _ p => p

/-- Whether a write transfer is a `WRITE_MEM_16BIT` command. -/
def wtIs16 : WTransfer → Bool
  | .w16 _ _ _ => true
  | _ => false

/-- The payload bytes sent on the wire by a sequence of write transfers,
in emission order. -/
def wirePayload (ts : List WTransfer) : List Nat :=
  (ts.map wtPayload).flatten

/-- Address field of a read transfer. -/
def rtAddr : RTransfer → Nat
  | .read8 a _ => a
  | .read16 a _ => a
  | .read32 a _ => a

/-- Length field of a read transfer. -/
def rtLen : RTransfer → Nat
  | .read8 _ l => l
  | .read16 _ l => l
  | .read32 _ l => l

/-- Whether a read transfer is a `READ_MEM_16BIT` command. -/
def rtIs16 : RTransfer → Bool
  | .read16 _ _ => true
  | _ => false

/-- `consecFrom a ts = some b` iff the transfers in `ts` cover the address
interval `[a, b)` consecutively, in order, with no gaps and no overlaps:
each transfer starts exactly where the previous one ended. -/
def consecFrom : Nat → List RTransfer → Option Nat
  | a, [] => some a
  | a, t :: ts => if rtAddr t = a then consecFrom (a + rtLen t) ts else none

/-- A V2 probe handle with the initial TAR auto-increment limit. -/
def probeV2 : Probe := { stlink := 2, hasMem16 := true, maxMemPacket := 1024 }

theorem usbBlock_pos (h : Probe) : 0 < usbBlock h := by
  unfold usbBlock; split <;> omega

theorem consecFrom_cons_self (a l : Nat) (t : RTransfer) (ts : List RTransfer)
    (ht : rtAddr t = a) (hl : rtLen t = l) :
    consecFrom a (t :: ts) = consecFrom (a + l) ts := by
  simp [consecFrom, ht, hl]

theorem consecFrom_append_some (a : Nat) (xs ys : List RTransfer) (b c : Nat)
    (hx : consecFrom a xs = some b) (hy : consecFrom b ys = some c) :
    consecFrom a (xs ++ ys) = some c := by
  induction xs generalizing a with
  | nil =>
    have hab : a = b := by simpa [consecFrom] using hx
    subst hab
    simpa using hy
  | cons t ts ih =>
    by_cases hc : rtAddr t = a
    · rw [List.cons_append, consecFrom_cons_self a (rtLen t) t _ hc rfl]
      refine ih _ ?_
      rw [consecFrom_cons_self a (rtLen t) t _ hc rfl] at hx
      exact hx
    · exfalso
      simp [consecFrom, hc] at hx

theorem chunkSize_le_left (count limit : Nat) : chunkSize count limit ≤ count := by
  unfold chunkSize; split <;> omega

theorem chunkSize_le_right (count limit : Nat) : chunkSize count limit ≤ limit := by
  unfold chunkSize; split <;> omega

theorem chunkSize_pos (count limit : Nat) (hc : 0 < count) (hl : 0 < limit) :
    0 < chunkSize count limit := by
  unfold chunkSize; split <;> omega

/-- The 8-bit chunk loop tiles `[addr, addr + count)` whenever the block
size is positive and the fuel is at least the byte count. -/
theorem readMem8Fuel_tiles (blk : Nat) (hblk : 0 < blk) :
    ∀ fuel addr count, count ≤ fuel →
      consecFrom addr (readMem8Fuel blk fuel addr count) = some (addr + count) := by
  intro fuel
  induction fuel with
  | zero =>
    intro addr count hc
    have : count = 0 := Nat.le_zero.mp hc
    subst this
    rfl
  | succ n ih =>
    intro addr count hc
    by_cases h0 : count = 0
    · subst h0; rfl
    · have hpos : 0 < count := Nat.pos_of_ne_zero h0
      have hbr1 := chunkSize_pos count blk hpos hblk
      have hbr2 := chunkSize_le_left count blk
      have hfu : count - chunkSize count blk ≤ n := by omega
      simp only [readMem8Fuel, if_neg h0]
      rw [consecFrom_cons_self addr (chunkSize count blk)
          (RTransfer.read8 addr (chunkSize count blk)) _ rfl rfl,
        ih (addr + chunkSize count blk) (count - chunkSize count blk) hfu]
      congr 1
      omega

/-- The aligned-chunk dispatch tiles `[addr, addr + br)`. -/
theorem readMemAlignedChunk_tiles (h : Probe) (u addr br : Nat) :
    consecFrom addr (readMemAlignedChunk h u addr br) = some (addr + br) := by
  unfold readMemAlignedChunk
  split
  · exact readMem8Fuel_tiles (usbBlock h) (usbBlock_pos h) br addr br le_rfl
  · split <;> simp [consecFrom, rtAddr, rtLen]

/-- If `u` divides `M`, a jump to the auto-increment page boundary lands on
an address that is `u`-aligned. -/
theorem pageJump_mod (M addr u : Nat) (hM : 0 < M) (hu : u ∣ M) :
    (addr + (M - addr % M)) % u = 0 := by
  have hlt : addr % M < M := Nat.mod_lt addr hM
  have hd := Nat.div_add_mod addr M
  have heq : addr + (M - addr % M) = M * (addr / M + 1) := by
    have : M * (addr / M + 1) = M * (addr / M) + M := by ring
    omega
  rw [heq]
  rcases hu with ⟨k, hk⟩
  rw [hk, Nat.mul_assoc]
  exact Nat.mul_mod_right u _

/-- If `u` divides `M` and `addr` is not `u`-aligned, the 8-bit head fits
inside the auto-increment page remainder. -/
theorem head_le_maxBlock (M addr u : Nat) (hM : 0 < M) (hu : u ∣ M)
    (ha : addr % u ≠ 0) : u - addr % u ≤ M - addr % M := by
  have hu0 : 0 < u := by
    rcases Nat.eq_zero_or_pos u with h0 | h
    · exfalso
      subst h0
      have := Nat.eq_zero_of_zero_dvd hu
      omega
    · exact h
  have hmm : addr % M % u = addr % u := Nat.mod_mod_of_dvd addr hu
  rcases hu with ⟨m, hm⟩
  have hmpos : 0 < m := by
    rcases Nat.eq_zero_or_pos m with h0 | h
    · subst h0; omega
    · exact h
  have hrlt : addr % M < M := Nat.mod_lt addr hM
  -- write r = addr % M as u * q + s with 1 ≤ s < u
  have hqd := Nat.div_add_mod (addr % M) u
  have hslt : addr % M % u < u := Nat.mod_lt _ hu0
  have hq : addr % M / u < m := by
    by_contra hc
    push_neg at hc
    have : u * m ≤ u * (addr % M / u) := Nat.mul_le_mul_left u hc
    omega
  have hq1 : u * (addr % M / u + 1) ≤ u * m := Nat.mul_le_mul_left u hq
  have : u * (addr % M / u + 1) = u * (addr % M / u) + u := by ring
  omega

/-- The 16/32-bit chunk loop tiles `[addr, addr + count)`: on every
iteration the head (when present) plus the dispatched chunk advance the
address by exactly the chunk size.  Loop invariant: whenever bytes remain,
either the address is `u`-aligned or at least `u` bytes remain (the entry
points guarantee the latter, and every continuing iteration restores the
former because it stops exactly at an auto-increment page boundary). -/
theorem readMemLoopFuel_tiles (h : Probe) (u : Nat) (hu : 2 ≤ u)
    (hM : 0 < h.maxMemPacket) (hdvd : u ∣ h.maxMemPacket) :
    ∀ fuel addr count, count ≤ fuel →
      (0 < count → addr % u = 0 ∨ u ≤ count) →
      consecFrom addr (readMemLoopFuel h u fuel addr count) = some (addr + count) := by
  intro fuel
  induction fuel with
  | zero =>
    intro addr count hc _
    have : count = 0 := Nat.le_zero.mp hc
    subst this
    rfl
  | succ n ih =>
    intro addr count hc hinv
    by_cases h0 : count = 0
    · subst h0; rfl
    · have hpos : 0 < count := Nat.pos_of_ne_zero h0
      have hu1 : u ≠ 1 := by omega
      have hblp : 0 < blockLimit h u addr := by
        unfold blockLimit maxBlockSize
        rw [if_pos hu1]
        have := Nat.mod_lt addr hM
        omega
      have hbrpos : 0 < chunkSize count (blockLimit h u addr) :=
        chunkSize_pos _ _ hpos hblp
      have hbrle : chunkSize count (blockLimit h u addr) ≤ count :=
        chunkSize_le_left _ _
      -- if the loop continues, the next address sits on a page boundary
      have hnext : ∀ addr' count',
          addr' = addr + chunkSize count (blockLimit h u addr) →
          count' = count - chunkSize count (blockLimit h u addr) →
          0 < count' → addr' % u = 0 ∨ u ≤ count' := by
        intro addr' count' ha' hc' hcpos
        left
        have hne : ¬ count < blockLimit h u addr := by
          intro hlt
          have : chunkSize count (blockLimit h u addr) = count := by
            unfold chunkSize; rw [if_pos hlt]
          omega
        have hbl : chunkSize count (blockLimit h u addr) = blockLimit h u addr := by
          unfold chunkSize; rw [if_neg hne]
        subst ha' hc'
        rw [hbl]
        unfold blockLimit
        rw [if_pos hu1]
        unfold maxBlockSize
        exact pageJump_mod h.maxMemPacket addr u hM hdvd
      simp only [readMemLoopFuel, if_neg h0, if_pos hu1]
      by_cases hal : addr % u > 0
      · -- unaligned head
        have hual : addr % u ≠ 0 := by omega
        have huc : u ≤ count := by
          rcases hinv hpos with h' | h'
          · omega
          · exact h'
        have hhead1 : 0 < u - addr % u := by
          have := Nat.mod_lt addr (show 0 < u by omega)
          omega
        have hheadu : u - addr % u < u := by omega
        have hheadbr : u - addr % u ≤ chunkSize count (blockLimit h u addr) := by
          have h1 : u - addr % u ≤ blockLimit h u addr := by
            unfold blockLimit
            rw [if_pos hu1]
            exact head_le_maxBlock h.maxMemPacket addr u hM hdvd hual
          unfold chunkSize
          split <;> omega
        rw [if_pos hal,
          consecFrom_cons_self addr (u - addr % u)
            (RTransfer.read8 addr (u - addr % u)) _ rfl rfl]
        have hchunk := readMemAlignedChunk_tiles h u (addr + (u - addr % u))
          (chunkSize count (blockLimit h u addr) - (u - addr % u))
        have hrest := ih
          (addr + (u - addr % u)
            + (chunkSize count (blockLimit h u addr) - (u - addr % u)))
          ((count - (u - addr % u))
            - (chunkSize count (blockLimit h u addr) - (u - addr % u)))
          (by omega)
          (fun hcpos => hnext _ _ (by omega) (by omega) hcpos)
        have hend : addr + (u - addr % u)
            + (chunkSize count (blockLimit h u addr) - (u - addr % u))
            + ((count - (u - addr % u))
              - (chunkSize count (blockLimit h u addr) - (u - addr % u)))
            = addr + count := by omega
        rw [← hend]
        exact consecFrom_append_some _ _ _ _ _ hchunk hrest
      · -- aligned iteration
        rw [if_neg hal]
        have hchunk := readMemAlignedChunk_tiles h u addr
          (chunkSize count (blockLimit h u addr))
        have hrest := ih (addr + chunkSize count (blockLimit h u addr))
          (count - chunkSize count (blockLimit h u addr)) (by omega)
          (hnext _ _ rfl rfl)
        have hend : addr + chunkSize count (blockLimit h u addr)
            + (count - chunkSize count (blockLimit h u addr)) = addr + count := by
          omega
        rw [← hend]
        exact consecFrom_append_some _ _ _ _ _ hchunk hrest

/-- At unit 1 the chunk loop is exactly the 8-bit chunk loop. -/
theorem readMemLoopFuel_one (h : Probe) :
    ∀ fuel addr count,
      readMemLoopFuel h 1 fuel addr count = readMem8Fuel (usbBlock h) fuel addr count := by
  intro fuel
  induction fuel with
  | zero => intro addr count; rfl
  | succ n ih =>
    intro addr count
    by_cases h0 : count = 0
    · subst h0; rfl
    · have hne : ¬ ((1 : Nat) ≠ 1) := fun hh => hh rfl
      simp only [readMemLoopFuel, readMem8Fuel, if_neg h0, if_neg hne]
      rw [show blockLimit h 1 addr = usbBlock h from rfl, ih]

/-- Every transfer emitted by the 8-bit chunk loop is a `READ_MEM_8BIT`. -/
theorem readMem8Fuel_only8 (blk : Nat) :
    ∀ fuel addr count t, t ∈ readMem8Fuel blk fuel addr count →
      t = RTransfer.read8 (rtAddr t) (rtLen t) := by
  intro fuel
  induction fuel with
  | zero =>
    intro addr count t ht
    simp [readMem8Fuel] at ht
  | succ n ih =>
    intro addr count t ht
    by_cases h0 : count = 0
    · subst h0
      simp [readMem8Fuel] at ht
    · simp only [readMem8Fuel, if_neg h0, List.mem_cons] at ht
      rcases ht with h | h
      · subst h; rfl
      · exact ih _ _ _ h

/-- Every transfer emitted by the 8-bit write chunk loop is a
`WRITE_MEM_8BIT`. -/
theorem writeMem8Fuel_only8 (blk : Nat) :
    ∀ fuel addr count buffer t, t ∈ writeMem8Fuel blk fuel addr count buffer →
      wtIs16 t = false := by
  intro fuel
  induction fuel with
  | zero =>
    intro addr count buffer t ht
    simp [writeMem8Fuel] at ht
  | succ n ih =>
    intro addr count buffer t ht
    by_cases h0 : count = 0
    · subst h0
      simp [writeMem8Fuel] at ht
    · simp only [writeMem8Fuel, if_neg h0, List.mem_cons] at ht
      rcases ht with h | h
      · subst h; rfl
      · exact ih _ _ _ _ h

/-- At unit 1 the write chunk loop forgets `bufferPos` entirely (the Go
8-bit branch never uses it) and coincides with the inner 8-bit loop. -/
theorem writeMemLoopFuel_one (h : Probe) :
    ∀ fuel addr count bufferPos buffer,
      writeMemLoopFuel h 1 fuel addr count bufferPos buffer
        = writeMem8Fuel (usbBlock h) fuel addr count buffer := by
  intro fuel
  induction fuel with
  | zero => intro addr count bufferPos buffer; rfl
  | succ n ih =>
    intro addr count bufferPos buffer
    by_cases h0 : count = 0
    · subst h0; rfl
    · have hne : ¬ ((1 : Nat) ≠ 1) := fun hh => hh rfl
      simp only [writeMemLoopFuel, writeMem8Fuel, if_neg h0, if_neg hne]
      rw [show blockLimit h 1 addr = usbBlock h from rfl, ih]

/-- Claim C2: for every `unit ∈ {1,2,4}`, a successful `ReadMem(addr, unit,
count)` call emits wire transfers whose address ranges tile
`[addr, addr + count*unit)` exactly once, in increasing address order, with
no gaps and no overlaps (`consecFrom` returns the exclusive upper end of
the covered interval).  The hypotheses delimit the real probe
configurations: `max_mem_packet` is `1 << 10` or `1 << 12` in the source,
so it is positive and divisible by 4, and the `uint32` address arithmetic
does not wrap. -/
theorem readMem_tiles (h : Probe) (addr u count : Nat)
    (hu : u = 1 ∨ u = 2 ∨ u = 4)
    (hM : 0 < h.maxMemPacket) (hdvd : 4 ∣ h.maxMemPacket)
    (hwrap : addr + count * u < 2 ^ 32) :
    consecFrom addr (ReadMem h addr u count) = some (addr + count * u) := by
  unfold ReadMem
  rcases hu with h1 | h2 | h4
  · subst h1
    rw [if_neg (fun hc => (by decide : (1 : Nat) ≠ 2) hc.1), readMemLoopFuel_one]
    exact readMem8Fuel_tiles _ (usbBlock_pos h) _ _ _ le_rfl
  · subst h2
    cases hmem : h.hasMem16 with
    | false =>
      rw [if_pos ⟨rfl, rfl⟩, readMemLoopFuel_one]
      exact readMem8Fuel_tiles _ (usbBlock_pos h) _ _ _ le_rfl
    | true =>
      rw [if_neg (fun hc => Bool.noConfusion hc.2)]
      exact readMemLoopFuel_tiles h 2 (by omega) hM
        (dvd_trans (by decide) hdvd) _ _ _ le_rfl (fun hc => by omega)
  · subst h4
    rw [if_neg (fun hc => (by decide : (4 : Nat) ≠ 2) hc.1)]
    exact readMemLoopFuel_tiles h 4 (by omega) hM hdvd _ _ _ le_rfl
      (fun hc => by omega)

/-- Claim C2 witness: the unaligned 32-bit read of 40 bytes at
`0x20000001` on a V2 probe tiles `[0x20000001, 0x20000029)`. -/
theorem readMem_tiles_witness :
    consecFrom 0x20000001 (ReadMem probeV2 0x20000001 4 10)
      = some (0x20000001 + 10 * 4) :=
  readMem_tiles probeV2 0x20000001 4 10 (Or.inr (Or.inr rfl)) (by decide)
    (by decide) (by decide)

/-- Claim C1 (counterexample): `ReadMem(0x20000001, unit=4, count=10)` on a
V2 probe with `mem_packet_limit = 1024` does *not* emit the three
transfers the spec lists.  After the 3-byte unaligned head, the remaining
37-byte chunk is not a multiple of 4, and `ReadMem` re-reads the *whole*
chunk through `ReadMem(addr, 1, 37)` (one 8-bit transfer, 37 ≤ 64), rather
than splitting it into a 36-byte 32-bit read and a 1-byte tail. -/
theorem readMem_unaligned32_claimed_trace_false :
    ReadMem probeV2 0x20000001 4 10
      ≠ [RTransfer.read8 0x20000001 3, RTransfer.read32 0x20000004 36,
         RTransfer.read8 0x20000028 1] := by decide

/-- Claim C1 (amended): the transfers actually emitted by
`ReadMem(0x20000001, 4, 10)` are `READ_MEM_8BIT(0x20000001, 3)` and
`READ_MEM_8BIT(0x20000004, 37)`; the three-transfer sequence the claim
lists is exactly what the byte-oriented helper
`UsbReadMem(0x20000001, len=40)` of `register.go` emits. -/
theorem readMem_unaligned32_trace :
    ReadMem probeV2 0x20000001 4 10
        = [RTransfer.read8 0x20000001 3, RTransfer.read8 0x20000004 37]
    ∧ UsbReadMem 0x20000001 40
        = [RTransfer.read8 0x20000001 3, RTransfer.read32 0x20000004 36,
           RTransfer.read8 0x20000028 1] := by
  exact ⟨by decide, by decide⟩

/-- Claim C3 (code evaluated at the failing input): a 100-byte unit-1
`WriteMem` at address 0 on a V2 probe (`usbBlock = 64`) splits into chunks
of 64 and 36 bytes, but the second chunk's payload is `buffer[0:36]` — the
first 36 bytes again — because the 8-bit branch passes the unsliced
`buffer` and ignores `bufferPos`.  The bytes emitted on the wire are
therefore not `in[0..100)` in order. -/
theorem writeMem_unit1_resends_first_bytes :
    WriteMem probeV2 0 1 100 (List.range 100)
        = [WTransfer.w8 0 64 (List.range 64), WTransfer.w8 64 36 (List.range 36)]
    ∧ wirePayload (WriteMem probeV2 0 1 100 (List.range 100)) ≠ List.range 100 := by
  exact ⟨by decide, by decide⟩

/-- Claim C8: when the `MEM16` capability is absent, a `unit = 2` request
is transparently downgraded to `unit = 1`: both `ReadMem` and `WriteMem`
emit exactly the transfers of the corresponding unit-1 call on the same
`count * 2` bytes, those transfers tile the same address range
`[addr, addr + count*2)`, and no 16-bit wire command appears. -/
theorem mem16_downgrade (stlink maxMemPacket addr count : Nat)
    (buffer : List Nat) :
    ReadMem ⟨stlink, false, maxMemPacket⟩ addr 2 count
        = ReadMem ⟨stlink, false, maxMemPacket⟩ addr 1 (count * 2)
    ∧ WriteMem ⟨stlink, false, maxMemPacket⟩ addr 2 count buffer
        = WriteMem ⟨stlink, false, maxMemPacket⟩ addr 1 (count * 2) buffer
    ∧ consecFrom addr (ReadMem ⟨stlink, false, maxMemPacket⟩ addr 2 count)
        = some (addr + count * 2)
    ∧ (∀ t ∈ ReadMem ⟨stlink, false, maxMemPacket⟩ addr 2 count,
        rtIs16 t = false)
    ∧ (∀ t ∈ WriteMem ⟨stlink, false, maxMemPacket⟩ addr 2 count buffer,
        wtIs16 t = false) := by
  have hread : ReadMem ⟨stlink, false, maxMemPacket⟩ addr 2 count
      = readMem8Fuel (usbBlock ⟨stlink, false, maxMemPacket⟩)
          (count * 2) addr (count * 2) := by
    unfold ReadMem
    rw [if_pos ⟨rfl, rfl⟩, readMemLoopFuel_one]
  have hwrite : WriteMem ⟨stlink, false, maxMemPacket⟩ addr 2 count buffer
      = writeMem8Fuel (usbBlock ⟨stlink, false, maxMemPacket⟩)
          (count * 2) addr (count * 2) buffer := by
    unfold WriteMem
    rw [if_pos ⟨rfl, rfl⟩, writeMemLoopFuel_one]
  have hread1 : ReadMem ⟨stlink, false, maxMemPacket⟩ addr 1 (count * 2)
      = readMem8Fuel (usbBlock ⟨stlink, false, maxMemPacket⟩)
          (count * 2 * 1) addr (count * 2 * 1) := by
    unfold ReadMem
    rw [if_neg (fun hc => (by decide : (1 : Nat) ≠ 2) hc.1), readMemLoopFuel_one]
  have hwrite1 : WriteMem ⟨stlink, false, maxMemPacket⟩ addr 1 (count * 2) buffer
      = writeMem8Fuel (usbBlock ⟨stlink, false, maxMemPacket⟩)
          (count * 2 * 1) addr (count * 2 * 1) buffer := by
    unfold WriteMem
    rw [if_neg (fun hc => (by decide : (1 : Nat) ≠ 2) hc.1), writeMemLoopFuel_one]
  refine ⟨?_, ?_, ?_, ?_, ?_⟩
  · rw [hread, hread1, Nat.mul_one]
  · rw [hwrite, hwrite1, Nat.mul_one]
  · rw [hread]
    exact readMem8Fuel_tiles _ (usbBlock_pos _) _ _ _ le_rfl
  · intro t ht
    rw [hread] at ht
    rw [readMem8Fuel_only8 _ _ _ _ _ ht]
    rfl
  · intro t ht
    rw [hwrite] at ht
    exact writeMem8Fuel_only8 _ _ _ _ _ _ ht

/-- Claim C8 witness: a concrete 10-byte `unit = 2` read on a V2 probe
without `MEM16` equals the corresponding unit-1 read and tiles its
interval. -/
theorem mem16_downgrade_witness :
    ReadMem ⟨2, false, 1024⟩ 0x20000001 2 5
        = ReadMem ⟨2, false, 1024⟩ 0x20000001 1 (5 * 2)
    ∧ consecFrom 0x20000001 (ReadMem ⟨2, false, 1024⟩ 0x20000001 2 5)
        = some (0x20000001 + 5 * 2) :=
  ⟨(mem16_downgrade 2 1024 0x20000001 5 []).1,
   (mem16_downgrade 2 1024 0x20000001 5 []).2.2.1⟩

/-! ### Mode entry / leave (`mode.go`) -/

/-- The command and subcommand byte constants written into `cmdbuf`.  Their
numeric firmware values live in the repository's constant table; the claims
only need their identities, so they are embedded as an enumeration. -/
inductive CmdByte where
  | cmdDebug
  | cmdSwim
  | cmdDfu
  | cmdGetVersion
  | cmdGetCurrentMode
  | cmdGetTargetVoltage
  | debugApiV1Enter
  | debugApiV2Enter
  | debugEnterJTagNoReset
  | debugEnterSwdNoReset
  | debugExit
  | swimEnter
  | swimExit
  | dfuExit
deriving DecidableEq, Repr

/-- The JTAG API variant of the probe firmware. -/
inductive JtagApi where
  | v1
  | v2
  | v3
deriving DecidableEq, Repr

/-- The transport mode constants (`StLinkMode`). -/
inductive StLinkMode where
  | debugJtag
  | debugSwd
  | debugSwim
  | dfu
  | mass
  | unknown
deriving DecidableEq, Repr

/-- Outcome of building a command: either the bytes written to `cmdbuf`
before the handle submits the buffer to the USB layer
(`usbCmdAllowRetry` / `usbTransferNoErrCheck`), or an error return that
never reaches the wire. -/
inductive UsbCall where
  | transfer (cmd : List CmdByte)
  | err
deriving DecidableEq, Repr

/-- `usbModeEnter` (`mode.go` lines 19–75): the switch writes
`{DEBUG, ENTER_V1|V2, JTAG|SWD_NO_RESET}` for the JTAG/SWD modes and
`{SWIM, ENTER}` for SWIM.  The `StLinkModeDfu` and `StLinkModeMass` cases
of the Go switch have empty bodies (no fallthrough in Go), so for those two
modes the function falls past the switch with *no bytes written* and still
calls `usbCmdAllowRetry`, submitting a zero-padded empty command buffer;
only the `default` case returns the "cannot set usb mode from DFU or mass
stlink configuration" error without touching the wire. -/
def usbModeEnter (api : JtagApi) (mode : StLinkMode) : UsbCall :=
  match mode with
  | .debugJtag =>
      .transfer [CmdByte.cmdDebug,
        if api = JtagApi.v1 then CmdByte.debugApiV1Enter else CmdByte.debugApiV2Enter,
        CmdByte.debugEnterJTagNoReset]
  | .debugSwd =>
      .transfer [CmdByte.cmdDebug,
        if api = JtagApi.v1 then CmdByte.debugApiV1Enter else CmdByte.debugApiV2Enter,
        CmdByte.debugEnterSwdNoReset]
  | .debugSwim => .transfer [CmdByte.cmdSwim, CmdByte.swimEnter]
  | .dfu => .transfer []
  | .mass => .transfer []
  | .unknown => .err

/-- `usbLeaveMode` (`mode.go` lines 217–248): `{DEBUG, EXIT}`,
`{SWIM, EXIT}` or `{DFU, EXIT}`; Mass and unknown modes return an error
without a transfer. -/
def usbLeaveMode (mode : StLinkMode) : UsbCall :=
  match mode with
  | .debugJtag => .transfer [CmdByte.cmdDebug, CmdByte.debugExit]
  | .debugSwd => .transfer [CmdByte.cmdDebug, CmdByte.debugExit]
  | .debugSwim => .transfer [CmdByte.cmdSwim, CmdByte.swimExit]
  | .dfu => .transfer [CmdByte.cmdDfu, CmdByte.dfuExit]
  | .mass => .err
  | .unknown => .err

/-- `usbCurrentMode` (`mode.go` lines 77–91) writes the single byte
`cmdGetCurrentMode` before transferring. -/
def usbCurrentModeCmd : List CmdByte := [CmdByte.cmdGetCurrentMode]

/-- `GetTargetVoltage` (`usb.go`) writes the single byte
`cmdGetTargetVoltage` before transferring. -/
def getTargetVoltageCmd : List CmdByte := [CmdByte.cmdGetTargetVoltage]

/-- The command-group bytes (first byte of a composite command). -/
def isCmdGroupByte : CmdByte → Bool
  | .cmdDebug => true
  | .cmdSwim => true
  | .cmdDfu => true
  | .cmdGetVersion => true
  | .cmdGetCurrentMode => true
  | .cmdGetTargetVoltage => true
  | _ => false

/-- A command buffer that begins with a command-group byte followed by a
subcommand byte. -/
def beginsWithGroupAndSub (c : List CmdByte) : Bool :=
  match c with
  | g :: _ :: _ => isCmdGroupByte g
  | _ => false

/-- Claim C4 (counterexample): mode entry for `StLinkModeDfu` reaches the
wire with an *empty* command buffer — zero bytes written, so no group byte
and no subcommand byte — contradicting the claim that every `StLinkMode`
value writes at least the two bytes before transferring.  (The Go `switch`
cases for DFU and Mass are empty and do not fall through to the `default`
error, so `usbCmdAllowRetry` is still called.) -/
theorem usbModeEnter_dfu_empty_buffer :
    usbModeEnter JtagApi.v2 StLinkMode.dfu = UsbCall.transfer []
    ∧ beginsWithGroupAndSub [] = false := by
  exact ⟨rfl, rfl⟩

/-- Claim C4 (amended): every command buffer that `usbModeEnter` builds for
a mode other than DFU/Mass, and every buffer `usbLeaveMode` builds, begins
with a command-group byte followed by a subcommand byte, and unknown modes
are rejected without wire traffic; but `usbModeEnter` submits an *empty*
command buffer for `StLinkModeDfu` and `StLinkModeMass` (the empty Go
switch cases), and the single-byte query commands (`GET_CURRENT_MODE`,
`GET_TARGET_VOLTAGE`) carry a group byte with no subcommand byte. -/
theorem usbModeEnter_leaveMode_command_shape (api : JtagApi) :
    (∀ m c, usbModeEnter api m = UsbCall.transfer c →
        m ≠ StLinkMode.dfu → m ≠ StLinkMode.mass →
        beginsWithGroupAndSub c = true)
    ∧ (∀ m c, usbLeaveMode m = UsbCall.transfer c →
        beginsWithGroupAndSub c = true)
    ∧ usbModeEnter api StLinkMode.dfu = UsbCall.transfer []
    ∧ usbModeEnter api StLinkMode.mass = UsbCall.transfer []
    ∧ usbModeEnter api StLinkMode.unknown = UsbCall.err
    ∧ usbLeaveMode StLinkMode.mass = UsbCall.err
    ∧ beginsWithGroupAndSub usbCurrentModeCmd = false
    ∧ beginsWithGroupAndSub getTargetVoltageCmd = false := by
  refine ⟨?_, ?_, rfl, rfl, rfl, rfl, rfl, rfl⟩
  · intro m c hm hdfu hmass
    cases m with
    | debugJtag =>
      injection hm with hm
      subst hm
      rfl
    | debugSwd =>
      injection hm with hm
      subst hm
      rfl
    | debugSwim =>
      injection hm with hm
      subst hm
      rfl
    | dfu => exact absurd rfl hdfu
    | mass => exact absurd rfl hmass
    | unknown => exact UsbCall.noConfusion hm
  · intro m c hm
    cases m with
    | debugJtag =>
      injection hm with hm
      subst hm
      rfl
    | debugSwd =>
      injection hm with hm
      subst hm
      rfl
    | debugSwim =>
      injection hm with hm
      subst hm
      rfl
    | dfu =>
      injection hm with hm
      subst hm
      rfl
    | mass => exact UsbCall.noConfusion hm
    | unknown => exact UsbCall.noConfusion hm

/-- Claim C4 witness: the SWD mode-entry buffer of an API-V2 probe begins
with the `DEBUG` group byte and a subcommand byte. -/
theorem usbModeEnter_command_shape_witness :
    beginsWithGroupAndSub [CmdByte.cmdDebug, CmdByte.debugApiV2Enter,
        CmdByte.debugEnterSwdNoReset] = true :=
  (usbModeEnter_leaveMode_command_shape JtagApi.v2).1 StLinkMode.debugSwd _
    rfl (by decide) (by decide)

/-! ### Access-port initialisation (`register.go`) -/

/-- Modelled from the spec: `debugAccessPortSelectionMaximum`
(`ACCESS_PORT_MAX`), "default max 255". -/
def debugAccessPortSelectionMaximum : Nat := 255

/-- A wire command of the access-port layer: `{DEBUG, INIT_AP, apNum}`. -/
inductive ApWire where
  | initAp (apNum : Nat)
deriving DecidableEq, Repr

/-- `usbOpenAp(apsel)` on the success path (the `INIT_AP` exchange, when
issued, succeeds).  State is the `openedAp` bitmap.  Returns the updated
bitmap, the wire commands emitted, and whether the call returned `nil`.
Order of the Go checks: missing `AP_INIT` capability → immediate success
with no traffic; `apsel > debugAccessPortSelectionMaximum` → error with no
traffic; bit already set → success with no traffic; otherwise
`usbInitAccessPort(apsel)` issues `{DEBUG, INIT_AP, apsel}` and the bit is
set. -/
def usbOpenAp (hasApInit : Bool) (openedAp : Nat → Bool) (apsel : Nat) :
    (Nat → Bool) × List ApWire × Bool :=
  if hasApInit = false then (openedAp, [], true)
  else if apsel > debugAccessPortSelectionMaximum then (openedAp, [], false)
  else if openedAp apsel then (openedAp, [], true)
  else (fun n => if n = apsel then true else openedAp n, [ApWire.initAp apsel], true)

/-- Claim C7: access-port init is capability-guarded and idempotent.
Without `AP_INIT` the call is a no-op success; an out-of-range `apsel` is
rejected with no wire traffic; and two successive calls with the same
in-range, not-yet-opened `apsel` emit exactly one `INIT_AP` wire command —
the second call leaves the state unchanged and emits nothing. -/
theorem usbOpenAp_guarded_idempotent (openedAp : Nat → Bool) (apsel : Nat) :
    (usbOpenAp false openedAp apsel = (openedAp, [], true))
    ∧ (apsel > debugAccessPortSelectionMaximum →
        usbOpenAp true openedAp apsel = (openedAp, [], false))
    ∧ (apsel ≤ debugAccessPortSelectionMaximum → openedAp apsel = false →
        (usbOpenAp true openedAp apsel).2 = ([ApWire.initAp apsel], true)
        ∧ usbOpenAp true (usbOpenAp true openedAp apsel).1 apsel
            = ((usbOpenAp true openedAp apsel).1, [], true)
        ∧ (usbOpenAp true openedAp apsel).2.1
            ++ (usbOpenAp true (usbOpenAp true openedAp apsel).1 apsel).2.1
            = [ApWire.initAp apsel]) := by
  refine ⟨rfl, ?_, ?_⟩
  · intro hgt
    unfold usbOpenAp
    rw [if_neg (by simp), if_pos hgt]
  · intro hle hnot
    have hngt : ¬ apsel > debugAccessPortSelectionMaximum := by omega
    have h1 : usbOpenAp true openedAp apsel
        = (fun n => if n = apsel then true else openedAp n,
            [ApWire.initAp apsel], true) := by
      unfold usbOpenAp
      rw [if_neg (by simp), if_neg hngt, hnot]
      rfl
    have h2 : usbOpenAp true
        (fun n => if n = apsel then true else openedAp n) apsel
        = ((fun n => if n = apsel then true else openedAp n), [], true) := by
      unfold usbOpenAp
      rw [if_neg (by simp), if_neg hngt]
      simp
    rw [h1]
    refine ⟨rfl, h2, ?_⟩
    rw [h2]
    rfl

/-- Claim C7 witness: concrete run with an empty bitmap and `apsel = 3`,
plus the out-of-range rejection at `apsel = 256` and the no-capability
no-op. -/
theorem usbOpenAp_guarded_idempotent_witness :
    usbOpenAp false (fun _ => false) 3 = ((fun _ => false), [], true)
    ∧ usbOpenAp true (fun _ => false) 256 = ((fun _ => false), [], false)
    ∧ (usbOpenAp true (fun _ => false) 3).2 = ([ApWire.initAp 3], true)
    ∧ usbOpenAp true (usbOpenAp true (fun _ => false) 3).1 3
        = ((usbOpenAp true (fun _ => false) 3).1, [], true) := by
  have ha := usbOpenAp_guarded_idempotent (fun _ => false) 3
  have hb := usbOpenAp_guarded_idempotent (fun _ => false) 256
  refine ⟨ha.1, hb.2.1 (by decide), ?_, ?_⟩
  · exact (ha.2.2 (by decide) rfl).1
  · exact (ha.2.2 (by decide) rfl).2.1

/-! ### 8-bit read reply fixup (`register.go` `UsbReadMem8`) -/

/-- `UsbReadMem8(addr, len)` on the success path: reject `len >
usbBlock()`; request `readLen = len` bytes on bulk IN, bumped to 2 when
`len == 1` ("we need to fix read length for single bytes"); then append
`ctx.DataBytes()` to the caller's buffer.  `DataBytes` is modelled from the
spec: the source "always writes the full reply into the caller's buffer"
(spec §9 open question), so all `readLen` reply bytes are appended.  The
result is `(wire len field, reply length requested, bytes appended)`;
`reply i` is the `i`-th byte the probe returns. -/
def UsbReadMem8Appended (h : Probe) (len : Nat) (reply : Nat → Nat) :
    Option (Nat × Nat × List Nat) :=
  if len > usbBlock h then none
  else
    let readLen := if len = 1 then len + 1 else len
    some (len, readLen, (List.range readLen).map reply)

/-- Claim C5 (counterexample): a 1-byte 8-bit read requests a 2-byte USB
reply, and *both* bytes — the data byte and the padding byte — are appended
to the caller's output buffer.  The caller receives 2 bytes, not 1, so the
padding byte is not discarded. -/
theorem usbReadMem8_keeps_padding_byte :
    UsbReadMem8Appended probeV2 1 (fun i => 0xAB + i) = some (1, 2, [0xAB, 0xAC])
    ∧ UsbReadMem8Appended probeV2 1 (fun i => 0xAB + i) ≠ some (1, 2, [0xAB]) := by
  exact ⟨by decide, by decide⟩

/-- Claim C5 (amended): for a requested length of 1 the expected USB reply
length is raised from 1 to 2 (the wire command's length field stays 1),
and the caller's output buffer receives both reply bytes — the padding
byte is appended rather than discarded. -/
theorem usbReadMem8_len1_reply_raised (h : Probe) (reply : Nat → Nat) :
    UsbReadMem8Appended h 1 reply = some (1, 2, [reply 0, reply 1]) := by
  unfold UsbReadMem8Appended
  rw [if_neg ?_]
  · rfl
  · have := usbBlock_pos h
    unfold usbBlock at this ⊢
    split <;> omega

/-! ### Outer retry policy of the memory facade (`usb.go` `ReadMem` /
`WriteMem`) -/

/-- Modelled from the spec: `maximumWaitRetries` (`MAX_WAIT_RETRIES`) = 8. -/
def maximumWaitRetries : Nat := 8

/-- The error classification seen by `WriteMem`'s retry `switch`:
no error, a `gousb.TransferStatus` value, a `*usbError` with code
`usbErrorWait`, any other `*usbError`, or any other error type. -/
inductive WriteMemErr where
  | noErr
  | transferStatus
  | usbWait
  | usbOther
  | otherErr
deriving DecidableEq, Repr

/-- What one iteration of an outer retry loop decides to do. -/
inductive RetryDecision where
  | proceed
  | sleepRetry (ms newRetries : Nat)
  | fail
deriving DecidableEq, Repr

/-- The error handling of `ReadMem` (identical at its two error sites): on
a `*usbError` with code `usbErrorWait` while `retries <
maximumWaitRetries`, sleep `(1 << retries) * 1000000` ns = `2^retries` ms,
increment `retries` and restart the chunk; otherwise return the error. -/
def readMemRetry (waitCode : Bool) (retries : Nat) : RetryDecision :=
  if waitCode ∧ retries < maximumWaitRetries then
    RetryDecision.sleepRetry (2 ^ retries) (retries + 1)
  else RetryDecision.fail

/-- The error handling of `WriteMem` (`usb.go` lines 616–639): a
`gousb.TransferStatus` sleeps `2^retries` ms and restarts *without any cap
check*; a `*usbError` with code `usbErrorWait` is capped at
`maximumWaitRetries`; everything else returns the error. -/
def writeMemRetry (e : WriteMemErr) (retries : Nat) : RetryDecision :=
  match e with
  | .noErr => RetryDecision.proceed
  | .transferStatus => RetryDecision.sleepRetry (2 ^ retries) (retries + 1)
  | .usbWait =>
      if retries < maximumWaitRetries then
        RetryDecision.sleepRetry (2 ^ retries) (retries + 1)
      else RetryDecision.fail
  | .usbOther => RetryDecision.fail
  | .otherErr => RetryDecision.fail

/-- Claim C6 (counterexample): `WriteMem`'s `gousb.TransferStatus` branch
retries *beyond* the `MAX_WAIT_RETRIES = 8` cap: at `retries = 8` it still
sleeps (256 ms) and retries instead of returning the error, so not every
retry path of the memory-facade outer loops stops after 8 attempts. -/
theorem writeMem_transferStatus_uncapped :
    writeMemRetry WriteMemErr.transferStatus maximumWaitRetries
        = RetryDecision.sleepRetry 256 9
    ∧ writeMemRetry WriteMemErr.transferStatus maximumWaitRetries
        ≠ RetryDecision.fail := by
  exact ⟨by decide, by decide⟩

/-- Claim C6 (amended): on a target-wait (`usbErrorWait`) status both
`ReadMem` and `WriteMem` sleep exactly `2^k` ms before retry attempt `k`
and stop after `MAX_WAIT_RETRIES = 8` attempts, returning the error; but
`WriteMem` additionally retries `gousb.TransferStatus` errors with the same
`2^k` ms sleep and no cap at all. -/
theorem outer_retry_policy (k : Nat) :
    readMemRetry true k
        = (if k < 8 then RetryDecision.sleepRetry (2 ^ k) (k + 1)
           else RetryDecision.fail)
    ∧ writeMemRetry WriteMemErr.usbWait k
        = (if k < 8 then RetryDecision.sleepRetry (2 ^ k) (k + 1)
           else RetryDecision.fail)
    ∧ writeMemRetry WriteMemErr.transferStatus k
        = RetryDecision.sleepRetry (2 ^ k) (k + 1)
    ∧ readMemRetry false k = RetryDecision.fail
    ∧ writeMemRetry WriteMemErr.usbOther k = RetryDecision.fail := by
  refine ⟨?_, ?_, rfl, ?_, rfl⟩
  · unfold readMemRetry maximumWaitRetries
    by_cases hk : k < 8
    · rw [if_pos ⟨rfl, hk⟩, if_pos hk]
    · rw [if_neg (fun hc => hk hc.2), if_neg hk]
  · unfold writeMemRetry maximumWaitRetries
    rfl
  · unfold readMemRetry
    rw [if_neg (fun hc => Bool.noConfusion hc.1)]

/-! ### Target voltage (`usb.go` `GetTargetVoltage`) -/

/-- `GetTargetVoltage` on the success path, with the `float32` arithmetic
of the source embedded as exact rational arithmetic (the literal `1.2`
becomes `6/5`; the concrete scenario below only multiplies and divides by
powers of two, which is exact in binary floating point as well).  Without
the `TARGET_VOLT` capability the call fails; otherwise the reply's two
little-endian `u32` ADC results `(ref, sig)` give
`2 * (sig * (1.2 / ref))` when `ref > 0`, else `0`. -/
def getTargetVoltage (hasTargetVolt : Bool) (ref sig : Nat) : Option ℚ :=
  if hasTargetVolt = false then none
  else some (if ref > 0 then 2 * ((sig : ℚ) * ((6 / 5) / (ref : ℚ))) else 0)

/-- Claim C9: the voltage query returns `2 · sig · 1.2 / ref` volts when
`ref > 0`, returns `0` when `ref = 0`, and the reply
`(ref = 0x1000, sig = 0x0800)` yields exactly `1.2` V. -/
theorem getTargetVoltage_formula (ref sig : Nat) :
    (0 < ref →
      getTargetVoltage true ref sig = some (2 * (sig : ℚ) * (6 / 5) / (ref : ℚ)))
    ∧ getTargetVoltage true 0 sig = some 0
    ∧ getTargetVoltage true 0x1000 0x0800 = some (6 / 5) := by
  refine ⟨?_, rfl, ?_⟩
  · intro href
    unfold getTargetVoltage
    rw [if_neg (by simp), if_pos href]
    congr 1
    ring
  · unfold getTargetVoltage
    norm_num

/-- Claim C9 witness: the concrete reply `(0x1000, 0x0800)` through the
`ref > 0` branch of the formula. -/
theorem getTargetVoltage_formula_witness :
    getTargetVoltage true 0x1000 0x0800 = some (2 * (0x0800 : ℚ) * (6 / 5) / (0x1000 : ℚ)) := by
  have h := (getTargetVoltage_formula 0x1000 0x0800).1 (by decide)
  simpa using h

/-! ### Trace polling (`usb.go` `PollTrace`) -/

/-- `PollTrace(buffer, size)` on the success path, as a function of the
trace state, the `TRACE` capability flag, the byte count reported by
`GET_TRACE_NB` and the caller's requested `*size`.  Returns the value
stored back into `*size` and `some n` when `usbReadTrace(buffer, n)` is
invoked (`none` when no trace read happens).  `*size` is a Go `uint32`, so
the `*size - 1` in the `bytesAvailable >= *size` branch wraps modulo
`2^32`. -/
def PollTrace (enabled hasTrace : Bool) (bytesAvailable size : Nat) :
    Nat × Option Nat :=
  if enabled ∧ hasTrace then
    let size' := if bytesAvailable < size then bytesAvailable
                 else (size + (2 ^ 32 - 1)) % 2 ^ 32
    if size' > 0 then (size', some size') else (0, none)
  else (0, none)

/-- Claim C10: with tracing enabled and the `TRACE` capability present, if
the probe reports at least as many available bytes as the caller requested
(`bytesAvailable ≥ size ≥ 1`), `PollTrace` stores `size - 1` back and reads
exactly that many bytes (no read at all when `size = 1`), so the caller
never receives the full requested amount; with tracing disabled it stores
`0` and performs no trace read. -/
theorem pollTrace_short_reads (enabled hasTrace : Bool)
    (bytesAvailable size : Nat)
    (h1 : 1 ≤ size) (h2 : size < 2 ^ 32) (h3 : size ≤ bytesAvailable) :
    PollTrace true true bytesAvailable size
        = (size - 1, if size - 1 > 0 then some (size - 1) else none)
    ∧ size - 1 < size
    ∧ (PollTrace true true bytesAvailable size).1 < size
    ∧ PollTrace false hasTrace bytesAvailable size = (0, none)
    ∧ PollTrace enabled false bytesAvailable size = (0, none) := by
  have hwrap : (size + (2 ^ 32 - 1)) % 2 ^ 32 = size - 1 := by
    have hs : size + (2 ^ 32 - 1) = (size - 1) + 2 ^ 32 := by omega
    rw [hs, Nat.add_mod_right]
    omega
  have hnlt : ¬ bytesAvailable < size := by omega
  have hmain : PollTrace true true bytesAvailable size
      = (size - 1, if size - 1 > 0 then some (size - 1) else none) := by
    unfold PollTrace
    rw [if_pos ⟨rfl, rfl⟩]
    simp only [if_neg hnlt, hwrap]
    by_cases hz : size - 1 > 0
    · rw [if_pos hz, if_pos hz]
    · rw [if_neg hz, if_neg hz]
      have h0 : size - 1 = 0 := by omega
      rw [h0]
  refine ⟨hmain, by omega, ?_, ?_, ?_⟩
  · rw [hmain]
    omega
  · unfold PollTrace
    rw [if_neg (fun hc => Bool.noConfusion hc.1)]
  · unfold PollTrace
    rw [if_neg (fun hc => Bool.noConfusion hc.2)]

/-- Claim C10 witness: requesting 5 bytes while 10 are available stores 4
and reads 4 bytes. -/
theorem pollTrace_short_reads_witness :
    PollTrace true true 10 5 = (5 - 1, if 5 - 1 > 0 then some (5 - 1) else none)
    ∧ 5 - 1 < 5 := by
  have h := pollTrace_short_reads true true 10 5 (by decide) (by decide) (by decide)
  exact ⟨h.1, h.2.1⟩

end Gostlink
